import Mathlib

/-!
Verification development for the anime-character-crawler repository.

Shallow embedding of the parts of the code the specification's claims are
about:

* `anime_scraper/pipelines.py` — `DeduplicationPipeline` (perceptual-hash
  deduplication index): `_hamming_distance`, `_find_duplicate`,
  `process_item`.
* `gui/crawler_thread.py` — `CrawlerThread`: `cancel`, `is_cancelled`,
  `run`, `_crawl_danbooru` (page loop, cooperative cancellation, per-page
  error handling, event emission).
* `anime_scraper/spiders/booru_html.py` — `BooruHtmlSpider`: item
  extraction with page numbers, `_should_continue_pagination`, the
  sequential pagination chain of `parse`.

Machine integers are modelled as `Nat` (Python integers are unbounded);
Python dictionaries as insertion-ordered association lists; optional /
falsy values as `Option` together with a `truthy` predicate mirroring
Python truthiness on strings.  External collaborators (network fetch,
image download, the pHash computation) are inputs to the model
functions, as the spec treats them as opaque.
-/

namespace AnimeCrawler

/-- Python truthiness for an optional string: `None` and `""` are falsy. -/
def truthy : Option String → Bool
  | none => false
  | some s => s ≠ ""

/-- Python `a or b` on optional strings: `b` unless `a` is truthy. -/
def pyOr (a b : Option String) : Option String :=
  if truthy a then a else b

/-! ## Deduplication pipeline (`anime_scraper/pipelines.py`) -/

/-- Value of one hexadecimal digit character, `none` for a non-hex digit. -/
def hexDigitVal (ch : Char) : Option Nat :=
  if '0' ≤ ch ∧ ch ≤ '9' then some (ch.toNat - '0'.toNat)
  else if 'a' ≤ ch ∧ ch ≤ 'f' then some (ch.toNat - 'a'.toNat + 10)
  else if 'A' ≤ ch ∧ ch ≤ 'F' then some (ch.toNat - 'A'.toNat + 10)
  else none

/-- Python `int(s, 16)` on a fingerprint string: big-endian hex digits,
failing (`ValueError`) on the empty string or any non-hex-digit
character.  Fingerprints produced by the pHash collaborator are plain
hex-digit strings, so the sign/whitespace/`0x` forms Python would also
accept do not arise. -/
def parseHex (s : String) : Option Nat :=
  if s.isEmpty then none
  else s.data.foldl
    (fun acc ch => acc.bind fun a => (hexDigitVal ch).map fun d => a * 16 + d)
    (some 0)

/-- Fuel-indexed bit counter: structural recursion on the fuel so the
kernel can evaluate it; `fuel = n` always suffices because the argument
at least halves at every step. -/
def popCountGo : Nat → Nat → Nat
  | _, 0 => 0
  | 0, _ + 1 => 0
  | fuel + 1, n + 1 => (n + 1) % 2 + popCountGo fuel ((n + 1) / 2)

/-- `bin(n).count("1")`: number of set bits of a nonnegative integer. -/
def popCount (n : Nat) : Nat := popCountGo n n

/-- `DeduplicationPipeline._hamming_distance(hash1, hash2)`.
Returns `none` for Python's `float("inf")`: produced when either hash is
falsy or fails to parse as hex; otherwise the bit count of the XOR. -/
def hamming_distance (hash1 hash2 : String) : Option Nat :=
  if hash1 = "" ∨ hash2 = "" then none
  else
    match parseHex hash1, parseHex hash2 with
    | some int1, some int2 => some (popCount (Nat.xor int1 int2))
    | _, _ => none

/-- `distance <= threshold` where `distance` may be `float("inf")` (= `none`),
which compares greater than every threshold. -/
def distLE (d : Option Nat) (threshold : Nat) : Bool :=
  match d with
  | none => false
  | some n => n ≤ threshold

/-- A persisted hash-database entry
(`self.existing_hashes[post_id] = {"hash": …, "path": …, "source_site": …, "added_at": …}`). -/
structure HashRecord where
  hash : String
  path : String
  source_site : Option String
  added_at : String
deriving DecidableEq, Repr

/-- The in-memory hash index `self.existing_hashes`: a Python dict from
post id to record, modelled as an insertion-ordered association list
(Python dicts preserve insertion order). -/
abbrev HashIndex := List (String × HashRecord)

/-- Python dict item assignment `d[k] = v`: replaces the value in place if
the key is present, otherwise appends a new entry. -/
def dictSet (d : HashIndex) (k : String) (v : HashRecord) : HashIndex :=
  if d.any (fun p => p.1 = k) then
    d.map (fun p => if p.1 = k then (k, v) else p)
  else d ++ [(k, v)]

/-- Python dict lookup `d.get(k)`. -/
def dictGet (d : HashIndex) (k : String) : Option HashRecord :=
  (d.find? (fun p => p.1 = k)).map Prod.snd

/-- `DeduplicationPipeline._find_duplicate(new_hash)`: scan the index in
order; the first record whose stored hash is truthy and within
`hamming_threshold` of the new hash yields its post id. -/
def find_duplicate (threshold : Nat) (index : HashIndex) (new_hash : String) :
    Option String :=
  if new_hash = "" then none
  else index.findSome? fun p =>
    if p.2.hash = "" then none
    else if distLE (hamming_distance new_hash p.2.hash) threshold then some p.1
    else none

/-- The fields of a scraped item that `DeduplicationPipeline.process_item`
reads or writes. -/
structure Item where
  post_id : Option String
  local_path : Option String
  source_site : Option String
  image_hash : Option String
  is_duplicate : Option Bool
deriving DecidableEq, Repr

/-- Mutable state of the pipeline relevant to classification. -/
structure DedupState where
  hamming_threshold : Nat
  images_store : String
  existing_hashes : HashIndex
deriving DecidableEq, Repr

/-- `DeduplicationPipeline.process_item(item, spider)` with the pHash
collaborator in place.  External effects are inputs: `fileExists` is
whether `full_path.exists()`, `computeHash` the result of
`self._compute_hash(...)` (`none` when hashing raised and was caught),
`now` the `datetime.utcnow().isoformat()` timestamp.  The branch on the
duplicate decision is Python's `if duplicate_id:` — a *truthiness* test
on the returned post id, so both `None` and the empty string select the
Unique branch.  Returns the item as passed on down the pipeline (this
pipeline never raises `DropItem`; the drop is commented out in the
source) together with the updated state.  The logging-only `stats`
counters are omitted. -/
def process_item (st : DedupState) (item : Item) (fileExists : Bool)
    (computeHash : Option String) (now : String) : Item × DedupState :=
  if ¬ truthy item.local_path then (item, st)
  else if ¬ fileExists then (item, st)
  else
    match computeHash with
    | none => (item, st)
    | some image_hash =>
      if image_hash = "" then (item, st)
      else
        let item1 := { item with image_hash := some image_hash }
        let duplicate_id :=
          find_duplicate st.hamming_threshold st.existing_hashes image_hash
        if truthy duplicate_id then ({ item1 with is_duplicate := some true }, st)
        else
          let local_path := item.local_path.getD ""
          let full_path := st.images_store ++ "/" ++ local_path
          let post_id := item.post_id.getD full_path
          let record : HashRecord :=
            { hash := image_hash
              path := local_path
              source_site := item.source_site
              added_at := now }
          ({ item1 with is_duplicate := some false },
           { st with existing_hashes := dictSet st.existing_hashes post_id record })

/-! ## GUI crawler thread (`gui/crawler_thread.py`) -/

/-- The fields of a Danbooru API post that `_crawl_danbooru` reads to
decide whether and what to emit. -/
structure Post where
  id : String
  file_url : Option String
  large_file_url : Option String
deriving DecidableEq, Repr

/-- Outcome of fetching and JSON-parsing one page: `fail` covers
`requests.exceptions.RequestException` and `json.JSONDecodeError` (both
caught with `continue`), `ok` a successfully parsed post list. -/
inductive PageResult where
  | fail
  | ok (posts : List Post)
deriving DecidableEq, Repr

/-- Qt signal emissions of `CrawlerThread`, in emission order. -/
inductive Ev where
  | progress (current total : Nat) (message : String)
  | imageFound (postId : String)
  | pageComplete (page count : Nat)
  | errorEmit (page : Nat)
  | finished (total : Nat)
deriving DecidableEq, Repr

/-- `True` exactly for `Ev.imageFound` events. -/
def Ev.isImageFound : Ev → Bool
  | .imageFound _ => true
  | _ => false

/-- `True` exactly for `Ev.errorEmit` events. -/
def Ev.isErrorEmit : Ev → Bool
  | .errorEmit _ => true
  | _ => false

/-- `CrawlerThread.cancel()`: sets the cancellation flag. -/
def CrawlerThread.cancel (_flag : Bool) : Bool := true

/-- `CrawlerThread.is_cancelled()`: reads the cancellation flag. -/
def CrawlerThread.is_cancelled (flag : Bool) : Bool := flag

/-- The inner `for post in posts:` loop of `_crawl_danbooru`.
`cancelAt n` is the value `is_cancelled()` returns at the `n`-th flag
read of the crawl (the flag lives in another thread's hands, so reads
are an oracle indexed by a read counter `k`).  Each iteration first
checks cancellation (break), then skips posts without a truthy
`file_url or large_file_url` (continue), else emits `image_found` and
increments the counters.  Returns the emitted events, the page's
`page_images` count, and the next read-counter value. -/
def emitPosts (cancelAt : Nat → Bool) : List Post → Nat → List Ev × Nat × Nat
  | [], k => ([], 0, k)
  | post :: rest, k =>
    if cancelAt k then ([], 0, k + 1)
    else
      if truthy (pyOr post.file_url post.large_file_url) then
        let (evs, cnt, k') := emitPosts cancelAt rest (k + 1)
        (Ev.imageFound post.id :: evs, cnt + 1, k')
      else emitPosts cancelAt rest (k + 1)

/-- The page loop of `_crawl_danbooru`, iterating over the remaining page
numbers of `range(1, max_pages + 1)`.  Each iteration: cancellation
check (break), `progress` emit, fetch; a fetch/parse failure emits
`error` and continues with the next page; an empty post list emits a
"No more results" progress and breaks; otherwise the posts are emitted
and `page_complete` follows.  Returns the events and the running
`total_images`. -/
def crawlPages (cancelAt : Nat → Bool) (fetch : Nat → PageResult)
    (maxPages : Nat) : List Nat → Nat → List Ev × Nat
  | [], _ => ([], 0)
  | page :: rest, k =>
    if cancelAt k then ([], 0)
    else
      let pEv := Ev.progress page maxPages ("Fetching page " ++ toString page ++ "...")
      match fetch page with
      | .fail =>
        let (evs, total) := crawlPages cancelAt fetch maxPages rest (k + 1)
        (pEv :: Ev.errorEmit page :: evs, total)
      | .ok posts =>
        if posts.isEmpty then
          ([pEv, Ev.progress page maxPages "No more results"], 0)
        else
          let (ievs, cnt, k') := emitPosts cancelAt posts (k + 1)
          let (evs, total) := crawlPages cancelAt fetch maxPages rest k'
          (pEv :: (ievs ++ Ev.pageComplete page cnt :: evs), cnt + total)

/-- `CrawlerThread._crawl_danbooru()`: runs the page loop over pages
`1 .. max_pages` and returns the emitted events and `total_images`. -/
def crawl_danbooru (cancelAt : Nat → Bool) (fetch : Nat → PageResult)
    (maxPages : Nat) : List Ev × Nat :=
  crawlPages cancelAt fetch maxPages (List.range' 1 maxPages) 0

/-- `CrawlerThread.run()` for `site == "danbooru"`: its first statement is
`self._is_cancelled = False`, so the flag value any prior `cancel()`
left behind (`priorCancelled`) is discarded; the crawl's flag reads see
only cancellations issued after `run` started (`cancelAt`).  On normal
return it emits `finished_crawling(total_images)`. -/
def CrawlerThread.run (priorCancelled : Bool) (cancelAt : Nat → Bool)
    (fetch : Nat → PageResult) (maxPages : Nat) : List Ev :=
  let reset := false
  let (evs, total) := crawl_danbooru (fun n => reset || cancelAt n) fetch maxPages
  evs ++ [Ev.finished total]

/-! ## Booru HTML spider (`anime_scraper/spiders/booru_html.py`) -/

/-- The attributes of one `article.post-preview` element that
`_extract_danbooru_item` reads to build an item (only those the claims
depend on; a missing attribute is `none`). -/
structure SpiderPost where
  data_file_url : Option String
  data_large_file_url : Option String
  data_preview_file_url : Option String
  data_id : Option String
deriving DecidableEq, Repr

/-- The fields of an `AnimeImageItem` the pagination claims are about. -/
structure SpiderItem where
  post_id : Option String
  page_number : Nat
  position_on_page : Nat
deriving DecidableEq, Repr

/-- `BooruHtmlSpider._extract_danbooru_item(post, response, page_number,
position)`: the canonical image URL is `data-file-url` or
`data-large-file-url` or `data-preview-file-url` (Python `or`); a post
with no truthy candidate yields `None` and is dropped. -/
def extract_danbooru_item (post : SpiderPost) (page_number position : Nat) :
    Option SpiderItem :=
  let image_url := pyOr (pyOr post.data_file_url post.data_large_file_url)
    post.data_preview_file_url
  if truthy image_url then
    some { post_id := post.data_id
           page_number := page_number
           position_on_page := position }
  else none

/-- The `for position, post in enumerate(posts_to_process, start=1)` loop
of `parse`: positions advance over every processed post, extracted or
dropped; only extracted items are yielded. -/
def extractItems (page_number : Nat) : List SpiderPost → Nat → List SpiderItem
  | [], _ => []
  | post :: rest, position =>
    match extract_danbooru_item post page_number position with
    | some item => item :: extractItems page_number rest (position + 1)
    | none => extractItems page_number rest (position + 1)

/-- `BooruHtmlSpider._should_continue_pagination(current_page,
posts_found)`.  `max_pages` is `None` when unset; a stored `0` is falsy
in `if self.max_pages and current_page >= self.max_pages`, hence also
unbounded. -/
def should_continue_pagination (max_pages : Option Nat)
    (current_page posts_found : Nat) : Bool :=
  if posts_found = 0 then false
  else
    match max_pages with
    | none => true
    | some m => !(m ≠ 0 && current_page ≥ m)

/-- The sequential pagination chain of `BooruHtmlSpider.parse`: Scrapy
with `CONCURRENT_REQUESTS = 1` runs one `parse` per page, each yielding
at most one follow-up request for `current_page + 1`.  `fetchPosts page`
is the parsed `response.css(post_selector)` list for that page (the
rendered-page fetch is the opaque collaborator); `images_per_page`
bounds `posts_to_process = posts[:images_per_page]`.  `fuel` bounds the
chain so the model is total when `max_pages` is unbounded.  Returns the
items yielded and the list of page numbers whose pages were fetched and
parsed, in order. -/
def spiderPages (fetchPosts : Nat → List SpiderPost) (max_pages : Option Nat)
    (images_per_page : Nat) : Nat → Nat → List SpiderItem × List Nat
  | 0, _ => ([], [])
  | fuel + 1, page =>
    let posts := fetchPosts page
    if posts.isEmpty then ([], [page])
    else
      let items := extractItems page (posts.take images_per_page) 1
      if should_continue_pagination max_pages page posts.length then
        let (items', pages') := spiderPages fetchPosts max_pages images_per_page fuel (page + 1)
        (items ++ items', page :: pages')
      else (items, [page])

/-- A whole spider crawl from `start_page` (`__init__` sets
`current_page = start_page`; `IMAGES_PER_PAGE` defaults to 20). -/
def spiderRun (fetchPosts : Nat → List SpiderPost) (max_pages : Option Nat)
    (start_page fuel : Nat) : List SpiderItem × List Nat :=
  spiderPages fetchPosts max_pages 20 fuel start_page

/-! ## Helper lemmas: deduplication -/

theorem find_duplicate_eq_none (threshold : Nat) (index : HashIndex) (h : String)
    (hno : ∀ p ∈ index, distLE (hamming_distance h p.2.hash) threshold = false) :
    find_duplicate threshold index h = none := by
  rw [find_duplicate]
  split
  · rfl
  · rw [List.findSome?_eq_none_iff]
    intro p hp
    have hd := hno p hp
    by_cases h1 : p.2.hash = "" <;> simp [h1, hd]

theorem dictGet_map_set_self (d : HashIndex) (k : String) (v : HashRecord)
    (hmem : d.any (fun p => p.1 = k) = true) :
    dictGet (d.map fun p => if p.1 = k then (k, v) else p) k = some v := by
  induction d with
  | nil => simp at hmem
  | cons p rest ih =>
    by_cases hp : p.1 = k
    · simp only [dictGet, List.map_cons, if_pos hp]
      rw [List.find?_cons_of_pos _ (by simp)]
      rfl
    · have hmem' : rest.any (fun p => p.1 = k) = true := by
        simpa [List.any_cons, hp] using hmem
      simp only [dictGet, List.map_cons, if_neg hp]
      rw [List.find?_cons_of_neg _ (by simp [hp])]
      exact ih hmem'

theorem dictGet_map_set_ne (d : HashIndex) (k : String) (v : HashRecord)
    (k' : String) (hk : k' ≠ k) :
    dictGet (d.map fun p => if p.1 = k then (k, v) else p) k' = dictGet d k' := by
  have hkk' : ¬ (k = k') := fun h => hk h.symm
  induction d with
  | nil => rfl
  | cons p rest ih =>
    by_cases hp : p.1 = k
    · have hpk : ¬ (p.1 = k') := by rw [hp]; exact hkk'
      simp only [dictGet, List.map_cons, if_pos hp]
      rw [List.find?_cons_of_neg _ (by simp [hkk']),
        List.find?_cons_of_neg _ (by simp [hpk])]
      exact ih
    · simp only [dictGet, List.map_cons, if_neg hp]
      by_cases hpk : p.1 = k'
      · rw [List.find?_cons_of_pos _ (by simp [hpk]),
          List.find?_cons_of_pos _ (by simp [hpk])]
      · rw [List.find?_cons_of_neg _ (by simp [hpk]),
          List.find?_cons_of_neg _ (by simp [hpk])]
        exact ih

theorem dictGet_append_single_self (d : HashIndex) (k : String) (v : HashRecord)
    (hmem : d.any (fun p => p.1 = k) = false) :
    dictGet (d ++ [(k, v)]) k = some v := by
  induction d with
  | nil =>
    simp only [dictGet, List.nil_append]
    rw [List.find?_cons_of_pos _ (by simp)]
    rfl
  | cons p rest ih =>
    have hp : ¬ (p.1 = k) := by
      intro h
      simp [List.any_cons, h] at hmem
    have hmem' : rest.any (fun p => p.1 = k) = false := by
      simpa [List.any_cons, hp] using hmem
    simp only [dictGet, List.cons_append]
    rw [List.find?_cons_of_neg _ (by simp [hp])]
    exact ih hmem'

theorem dictGet_append_single_ne (d : HashIndex) (k : String) (v : HashRecord)
    (k' : String) (hk : k' ≠ k) :
    dictGet (d ++ [(k, v)]) k' = dictGet d k' := by
  have hkk' : ¬ (k = k') := fun h => hk h.symm
  induction d with
  | nil =>
    simp only [dictGet, List.nil_append]
    rw [List.find?_cons_of_neg _ (by simp [hkk'])]
  | cons p rest ih =>
    simp only [dictGet, List.cons_append]
    by_cases hpk : p.1 = k'
    · rw [List.find?_cons_of_pos _ (by simp [hpk]),
        List.find?_cons_of_pos _ (by simp [hpk])]
    · rw [List.find?_cons_of_neg _ (by simp [hpk]),
        List.find?_cons_of_neg _ (by simp [hpk])]
      exact ih

theorem dictGet_dictSet_self (d : HashIndex) (k : String) (v : HashRecord) :
    dictGet (dictSet d k v) k = some v := by
  rw [dictSet]
  split
  · exact dictGet_map_set_self d k v (by assumption)
  · rename_i hn
    exact dictGet_append_single_self d k v (Bool.not_eq_true _ ▸ hn)

theorem dictGet_dictSet_ne (d : HashIndex) (k : String) (v : HashRecord)
    (k' : String) (hk : k' ≠ k) :
    dictGet (dictSet d k v) k' = dictGet d k' := by
  rw [dictSet]
  split
  · exact dictGet_map_set_ne d k v k' hk
  · exact dictGet_append_single_ne d k v k' hk

/-! ## Claim theorems: deduplication -/

/-- C1: `_find_duplicate` reports a duplicate iff some existing record's
fingerprint is within Hamming distance `hammingThreshold` of the new
one; at the boundary, a sole candidate record differing in exactly
`threshold` bits is classified `Duplicate` (its post id is returned) and
one differing in exactly `threshold + 1` bits is classified `Unique`
(`None` is returned). -/
theorem dedup_duplicate_iff_within_threshold (threshold : Nat) (index : HashIndex)
    (new_hash pid : String) (r : HashRecord) :
    ((find_duplicate threshold index new_hash).isSome = true ↔
      ∃ p ∈ index, p.2.hash ≠ "" ∧
        distLE (hamming_distance new_hash p.2.hash) threshold = true)
    ∧ (hamming_distance new_hash r.hash = some threshold →
        find_duplicate threshold [(pid, r)] new_hash = some pid)
    ∧ (hamming_distance new_hash r.hash = some (threshold + 1) →
        find_duplicate threshold [(pid, r)] new_hash = none) := by
  refine ⟨?_, ?_, ?_⟩
  · by_cases hnh : new_hash = ""
    · subst hnh
      simp [find_duplicate, hamming_distance, distLE]
    · rw [find_duplicate, if_neg hnh, Option.isSome_iff_ne_none, ne_eq,
        List.findSome?_eq_none_iff]
      push_neg
      constructor
      · rintro ⟨p, hp, hne⟩
        refine ⟨p, hp, ?_⟩
        by_cases h1 : p.2.hash = ""
        · simp [h1] at hne
        · by_cases h2 : distLE (hamming_distance new_hash p.2.hash) threshold = true
          · exact ⟨h1, h2⟩
          · simp [h1, h2] at hne
      · rintro ⟨p, hp, h1, h2⟩
        exact ⟨p, hp, by simp [h1, h2]⟩
  · intro hd
    have hnh : new_hash ≠ "" := by
      intro h0
      rw [hamming_distance, if_pos (Or.inl h0)] at hd
      exact Option.noConfusion hd
    have hrh : r.hash ≠ "" := by
      intro h0
      rw [hamming_distance, if_pos (Or.inr h0)] at hd
      exact Option.noConfusion hd
    rw [find_duplicate, if_neg hnh]
    rw [List.findSome?_cons]
    simp [hrh, hd, distLE]
  · intro hd
    have hnh : new_hash ≠ "" := by
      intro h0
      rw [hamming_distance, if_pos (Or.inl h0)] at hd
      exact Option.noConfusion hd
    rw [find_duplicate, if_neg hnh]
    rw [List.findSome?_cons]
    by_cases hrh : r.hash = ""
    · simp [hrh]
    · simp [hrh, hd, distLE]

/-- Witness for C1: threshold 10 (the default), fingerprint `"0"` against a
record with fingerprint `"3ff"` (exactly 10 differing bits → duplicate of
`"p1"`) and against `"7ff"` (exactly 11 differing bits → unique). -/
theorem dedup_duplicate_iff_within_threshold_witness :
    find_duplicate 10 [("p1", ⟨"3ff", "a.jpg", some "danbooru", "t0"⟩)] "0" = some "p1"
    ∧ find_duplicate 10 [("p1", ⟨"7ff", "a.jpg", some "danbooru", "t0"⟩)] "0" = none :=
  ⟨(dedup_duplicate_iff_within_threshold 10 [] "0" "p1"
      ⟨"3ff", "a.jpg", some "danbooru", "t0"⟩).2.1 (by decide),
   (dedup_duplicate_iff_within_threshold 10 [] "0" "p1"
      ⟨"7ff", "a.jpg", some "danbooru", "t0"⟩).2.2 (by decide)⟩

/-- C2: when no existing record is within the Hamming threshold of the
computed fingerprint, `process_item` classifies the item `Unique`
(`is_duplicate = False`), records the fingerprint on the item, and
inserts exactly one new hash record — keyed by the item's post id,
holding the fingerprint, the local path, the source site and the
`added_at` timestamp — leaving every other entry of the index
unchanged (and, when the key is fresh, the new index is the old one
with the single new entry appended). -/
theorem process_item_unique_inserts_record (st : DedupState) (item : Item)
    (image_hash now : String)
    (hlp : truthy item.local_path = true)
    (hh : image_hash ≠ "")
    (hno : ∀ p ∈ st.existing_hashes,
      distLE (hamming_distance image_hash p.2.hash) st.hamming_threshold = false) :
    (process_item st item true (some image_hash) now).1.is_duplicate = some false
    ∧ (process_item st item true (some image_hash) now).1.image_hash = some image_hash
    ∧ dictGet (process_item st item true (some image_hash) now).2.existing_hashes
        (item.post_id.getD (st.images_store ++ "/" ++ item.local_path.getD ""))
      = some { hash := image_hash, path := item.local_path.getD "",
               source_site := item.source_site, added_at := now }
    ∧ (∀ k, k ≠ item.post_id.getD (st.images_store ++ "/" ++ item.local_path.getD "") →
        dictGet (process_item st item true (some image_hash) now).2.existing_hashes k
          = dictGet st.existing_hashes k)
    ∧ (st.existing_hashes.any
          (fun p => p.1 = item.post_id.getD
            (st.images_store ++ "/" ++ item.local_path.getD "")) = false →
        (process_item st item true (some image_hash) now).2.existing_hashes
          = st.existing_hashes ++
            [(item.post_id.getD (st.images_store ++ "/" ++ item.local_path.getD ""),
              { hash := image_hash, path := item.local_path.getD "",
                source_site := item.source_site, added_at := now })]) := by
  have hfd : find_duplicate st.hamming_threshold st.existing_hashes image_hash = none :=
    find_duplicate_eq_none _ _ _ hno
  have hstep : process_item st item true (some image_hash) now
      = ({ item with image_hash := some image_hash, is_duplicate := some false },
         { st with existing_hashes :=
            (dictSet st.existing_hashes
              (item.post_id.getD (st.images_store ++ "/" ++ item.local_path.getD ""))
              { hash := image_hash, path := item.local_path.getD "",
                source_site := item.source_site, added_at := now }) }) := by
    rw [process_item]
    simp [hlp, hh, hfd, show truthy none = false from rfl]
  rw [hstep]
  refine ⟨rfl, rfl, dictGet_dictSet_self _ _ _,
    fun k hk => dictGet_dictSet_ne _ _ _ _ hk, ?_⟩
  intro hfresh
  simp only [dictSet, hfresh, Bool.false_eq_true, if_false]

/-- Witness for C2: empty index, item `p2` with fingerprint `"ff"` — the
resulting index maps `p2` to the new record. -/
theorem process_item_unique_inserts_record_witness :
    dictGet (process_item ⟨10, "downloaded_images", []⟩
        ⟨some "p2", some "b.jpg", some "danbooru", none, none⟩
        true (some "ff") "t1").2.existing_hashes "p2"
      = some ⟨"ff", "b.jpg", some "danbooru", "t1"⟩ :=
  (process_item_unique_inserts_record ⟨10, "downloaded_images", []⟩
    ⟨some "p2", some "b.jpg", some "danbooru", none, none⟩ "ff" "t1"
    (by decide) (by decide) (by intro p hp; exact absurd hp (List.not_mem_nil p))).2.2.1

/-- C3 counterexample: the claim asserts that a fingerprint already in the
index is always classified `Duplicate` with the index left unchanged,
for any stored record.  But `process_item` branches on Python's
`if duplicate_id:` — a truthiness test — so when the matching record is
keyed by the empty string (reachable from an empty `data-id`),
`_find_duplicate` returns `""`, the falsy id selects the Unique branch,
`is_duplicate` is set to `False`, and a second record is inserted: the
one-record index holds two records afterwards. -/
theorem process_item_empty_key_exact_match_unique :
    find_duplicate 10 [("", ⟨"ff", "a.jpg", none, "t0"⟩)] "ff" = some ""
    ∧ (process_item ⟨10, "downloaded_images", [("", ⟨"ff", "a.jpg", none, "t0"⟩)]⟩
        ⟨some "p2", some "b.jpg", none, none, none⟩ true (some "ff") "t1")
      = (⟨some "p2", some "b.jpg", none, some "ff", some false⟩,
         ⟨10, "downloaded_images",
          [("", ⟨"ff", "a.jpg", none, "t0"⟩),
           ("p2", ⟨"ff", "b.jpg", none, "t1"⟩)]⟩) := by decide

/-- C3 amended: provided the stored record's post id is truthy (nonempty),
classifying an image whose computed fingerprint is exactly the one
stored in a single-record index yields `Duplicate` (never `Unique`):
`_find_duplicate` names the existing record's post id, `is_duplicate` is
set to `True`, and the index is left with exactly its one original
record.  (With an empty-string key Python's `if duplicate_id:`
truthiness test sends the code down the Unique branch instead — see the
counterexample.) -/
theorem process_item_exact_fingerprint_duplicate (threshold : Nat)
    (store p1 now : String) (r : HashRecord) (item : Item)
    (hp1 : p1 ≠ "")
    (hlp : truthy item.local_path = true)
    (hne : r.hash ≠ "")
    (hhex : (parseHex r.hash).isSome = true) :
    process_item ⟨threshold, store, [(p1, r)]⟩ item true (some r.hash) now
      = ({ item with image_hash := some r.hash, is_duplicate := some true },
         ⟨threshold, store, [(p1, r)]⟩)
    ∧ find_duplicate threshold [(p1, r)] r.hash = some p1 := by
  obtain ⟨v, hv⟩ := Option.isSome_iff_exists.mp hhex
  have hxor : Nat.xor v v = 0 := Nat.xor_self v
  have hzero : hamming_distance r.hash r.hash = some 0 := by
    rw [hamming_distance, if_neg (by simp [hne]), hv]
    show some (popCount (Nat.xor v v)) = some 0
    rw [hxor]
    rfl
  have hfd : find_duplicate threshold [(p1, r)] r.hash = some p1 := by
    rw [find_duplicate, if_neg hne, List.findSome?_cons]
    simp [hne, hzero, distLE]
  have hstep : process_item ⟨threshold, store, [(p1, r)]⟩ item true (some r.hash) now
      = ({ item with image_hash := some r.hash, is_duplicate := some true },
         ⟨threshold, store, [(p1, r)]⟩) := by
    rw [process_item]
    simp [hlp, hne, hfd, show truthy (some p1) = true from by simp [truthy, hp1]]
  exact ⟨hstep, hfd⟩

/-- Witness for C3: index `{p1 ↦ "ff"}`, new image hashing to `"ff"` —
duplicate verdict, index unchanged. -/
theorem process_item_exact_fingerprint_duplicate_witness :
    process_item ⟨10, "downloaded_images", [("p1", ⟨"ff", "a.jpg", none, "t0"⟩)]⟩
        ⟨some "p2", some "b.jpg", none, none, none⟩ true (some "ff") "t1"
      = (⟨some "p2", some "b.jpg", none, some "ff", some true⟩,
         ⟨10, "downloaded_images", [("p1", ⟨"ff", "a.jpg", none, "t0"⟩)]⟩) :=
  (process_item_exact_fingerprint_duplicate 10 "downloaded_images" "p1" "t1"
    ⟨"ff", "a.jpg", none, "t0"⟩ ⟨some "p2", some "b.jpg", none, none, none⟩
    (by decide) (by decide) (by decide) (by decide)).1

/-- C4 (code bug): the claim says a hash record for a given post id is
created at most once and never mutated or replaced; but when the same
post id is classified `Unique` a second time (a cross-site post-id
collision with a visually different image — the spec flags this keying
as a latent bug), `process_item` replaces the stored record: starting
from an index mapping `"123"` to fingerprint `"0"`, reprocessing post id
`"123"` with fingerprint `"fff"` (Hamming distance 12 > 10) overwrites
the record. -/
theorem process_item_replaces_record_same_postid :
    (process_item ⟨10, "downloaded_images", [("123", ⟨"0", "a.jpg", some "danbooru", "t0"⟩)]⟩
        ⟨some "123", some "b.jpg", some "safebooru", none, none⟩
        true (some "fff") "t1").2.existing_hashes
      = [("123", ⟨"fff", "b.jpg", some "safebooru", "t1"⟩)] := by decide

/-- C5: if fingerprint computation fails (`_compute_hash` returned `None`
after catching the exception, or a falsy empty encoding), the item still
passes through the pipeline unchanged — `process_item` returns it rather
than dropping it — and the hash index is not modified. -/
theorem process_item_hash_failure_passthrough (st : DedupState) (item : Item)
    (fileExists : Bool) (computeHash : Option String) (now : String)
    (hfail : computeHash = none ∨ computeHash = some "") :
    process_item st item fileExists computeHash now = (item, st) := by
  rcases hfail with h | h <;> subst h <;> rw [process_item] <;>
    by_cases h1 : truthy item.local_path <;> by_cases h2 : fileExists <;>
      simp [h1, h2]

/-- Witness for C5: a hashing failure on a downloaded item leaves item and
index untouched. -/
theorem process_item_hash_failure_passthrough_witness :
    process_item ⟨10, "downloaded_images", [("p1", ⟨"ff", "a.jpg", none, "t0"⟩)]⟩
        ⟨some "p2", some "b.jpg", none, none, none⟩ true none "t1"
      = (⟨some "p2", some "b.jpg", none, none, none⟩,
         ⟨10, "downloaded_images", [("p1", ⟨"ff", "a.jpg", none, "t0"⟩)]⟩) :=
  process_item_hash_failure_passthrough _ _ _ _ _ (Or.inl rfl)

/-! ## Helper lemmas: GUI crawler thread -/

theorem emitPosts_countP (c : Nat → Bool) :
    ∀ (ps : List Post) (k : Nat),
      (emitPosts c ps k).1.countP Ev.isImageFound = (emitPosts c ps k).2.1 := by
  intro ps
  induction ps with
  | nil => intro k; simp [emitPosts]
  | cons p rest ih =>
    intro k
    rw [emitPosts]
    by_cases hck : c k
    · simp [hck]
    · simp only [hck, Bool.false_eq_true, if_false]
      by_cases hu : truthy (pyOr p.file_url p.large_file_url)
      · simp only [hu, if_true]
        have hrec := ih (k + 1)
        rcases he : emitPosts c rest (k + 1) with ⟨evs, cnt, k'⟩
        rw [he] at hrec
        simpa [List.countP_cons, Ev.isImageFound] using hrec
      · simp only [hu, Bool.false_eq_true, if_false]
        exact ih (k + 1)

theorem emitPosts_le (c : Nat → Bool) (K : Nat) (hc : ∀ n, K ≤ n → c n = true) :
    ∀ (ps : List Post) (k : Nat),
      (emitPosts c ps k).2.1 + k ≤ (emitPosts c ps k).2.2
      ∧ (emitPosts c ps k).2.1 ≤ K - k := by
  intro ps
  induction ps with
  | nil => intro k; simp [emitPosts]
  | cons p rest ih =>
    intro k
    rw [emitPosts]
    by_cases hck : c k
    · simp [hck]
    · have hkK : k < K := by
        by_contra hge
        exact absurd (hc k (by omega)) (by simpa using hck)
      simp only [hck, Bool.false_eq_true, if_false]
      by_cases hu : truthy (pyOr p.file_url p.large_file_url)
      · simp only [hu, if_true]
        have hrec := ih (k + 1)
        rcases he : emitPosts c rest (k + 1) with ⟨evs, cnt, k'⟩
        rw [he] at hrec
        have h1 : cnt + (k + 1) ≤ k' := hrec.1
        have h2 : cnt ≤ K - (k + 1) := hrec.2
        refine ⟨?_, ?_⟩
        · show cnt + 1 + k ≤ k'
          omega
        · show cnt + 1 ≤ K - k
          omega
      · simp only [hu, Bool.false_eq_true, if_false]
        have hrec := ih (k + 1)
        rcases he : emitPosts c rest (k + 1) with ⟨evs, cnt, k'⟩
        rw [he] at hrec
        have h1 : cnt + (k + 1) ≤ k' := hrec.1
        have h2 : cnt ≤ K - (k + 1) := hrec.2
        refine ⟨?_, ?_⟩
        · show cnt + k ≤ k'
          omega
        · show cnt ≤ K - k
          omega

theorem crawlPages_countP_le (c : Nat → Bool) (fetch : Nat → PageResult)
    (maxP K : Nat) (hc : ∀ n, K ≤ n → c n = true) :
    ∀ (pages : List Nat) (k : Nat),
      (crawlPages c fetch maxP pages k).1.countP Ev.isImageFound ≤ K - k := by
  intro pages
  induction pages with
  | nil => intro k; simp [crawlPages]
  | cons page rest ih =>
    intro k
    rw [crawlPages]
    by_cases hck : c k
    · simp [hck]
    · have hkK : k < K := by
        by_contra hge
        exact absurd (hc k (by omega)) (by simpa using hck)
      simp only [hck, Bool.false_eq_true, if_false]
      cases hf : fetch page with
      | fail =>
        have hrec := ih (k + 1)
        rcases he : crawlPages c fetch maxP rest (k + 1) with ⟨evs, total⟩
        rw [he] at hrec
        have hrec' : List.countP Ev.isImageFound evs ≤ K - (k + 1) := hrec
        show List.countP Ev.isImageFound
          (Ev.progress page maxP ("Fetching page " ++ toString page ++ "...")
            :: Ev.errorEmit page :: evs) ≤ K - k
        rw [List.countP_cons, List.countP_cons]
        simp [Ev.isImageFound]
        omega
      | ok posts =>
        by_cases hemp : posts.isEmpty
        · simp [hemp, List.countP_cons, Ev.isImageFound]
        · simp only [hemp, Bool.false_eq_true, if_false]
          have hcnt := emitPosts_countP c posts (k + 1)
          have hbd := emitPosts_le c K hc posts (k + 1)
          rcases hei : emitPosts c posts (k + 1) with ⟨ievs, cnt, k'⟩
          rw [hei] at hcnt hbd
          have hcnt' : List.countP Ev.isImageFound ievs = cnt := hcnt
          have hb1 : cnt + (k + 1) ≤ k' := hbd.1
          have hb2 : cnt ≤ K - (k + 1) := hbd.2
          have hrec := ih k'
          rcases he : crawlPages c fetch maxP rest k' with ⟨evs, total⟩
          rw [he] at hrec
          have hrec' : List.countP Ev.isImageFound evs ≤ K - k' := hrec
          show List.countP Ev.isImageFound
            (Ev.progress page maxP ("Fetching page " ++ toString page ++ "...")
              :: (ievs ++ Ev.pageComplete page cnt :: evs)) ≤ K - k
          rw [List.countP_cons, List.countP_append, List.countP_cons]
          simp [Ev.isImageFound]
          omega

theorem crawlPages_cancelled_at_zero (c : Nat → Bool) (fetch : Nat → PageResult)
    (maxP : Nat) (pages : List Nat) (hc : c 0 = true) :
    crawlPages c fetch maxP pages 0 = ([], 0) := by
  cases pages with
  | nil => rfl
  | cons page rest =>
    rw [crawlPages]
    simp [hc]

theorem emitPosts_all_imageFound (c : Nat → Bool) :
    ∀ (ps : List Post) (k : Nat) (ev : Ev),
      ev ∈ (emitPosts c ps k).1 → ev.isImageFound = true := by
  intro ps
  induction ps with
  | nil => intro k ev hev; simp [emitPosts] at hev
  | cons p rest ih =>
    intro k ev hev
    rw [emitPosts] at hev
    by_cases hck : c k
    · simp [hck] at hev
    · simp only [hck, Bool.false_eq_true, if_false] at hev
      by_cases hu : truthy (pyOr p.file_url p.large_file_url)
      · simp only [hu, if_true] at hev
        rcases he : emitPosts c rest (k + 1) with ⟨evs, cnt, k'⟩
        rw [he] at hev
        simp only [List.mem_cons] at hev
        rcases hev with rfl | hev
        · rfl
        · exact ih (k + 1) ev (by rw [he]; exact hev)
      · simp only [hu, Bool.false_eq_true, if_false] at hev
        exact ih (k + 1) ev hev

theorem crawlPages_progress_mem (c : Nat → Bool) (fetch : Nat → PageResult)
    (maxP : Nat) (hc : ∀ n, c n = false) (hne : ∀ p, fetch p ≠ PageResult.ok []) :
    ∀ (pages : List Nat) (k p : Nat), p ∈ pages →
      Ev.progress p maxP ("Fetching page " ++ toString p ++ "...")
        ∈ (crawlPages c fetch maxP pages k).1 := by
  intro pages
  induction pages with
  | nil => intro k p hp; simp at hp
  | cons page rest ih =>
    intro k p hp
    rw [crawlPages]
    rw [hc k]
    simp only [Bool.false_eq_true, if_false]
    cases hf : fetch page with
    | fail =>
      rcases he : crawlPages c fetch maxP rest (k + 1) with ⟨evs, total⟩
      rcases List.mem_cons.mp hp with rfl | hp'
      · exact List.mem_cons_self _ _
      · have := ih (k + 1) p hp'
        rw [he] at this
        simp only [List.mem_cons]
        right; right
        exact this
    | ok posts =>
      have hnem : posts.isEmpty = false := by
        cases posts with
        | nil => exact absurd hf (hne page)
        | cons q qs => rfl
      simp only [hnem, Bool.false_eq_true, if_false]
      rcases hei : emitPosts c posts (k + 1) with ⟨ievs, cnt, k'⟩
      rcases he : crawlPages c fetch maxP rest k' with ⟨evs, total⟩
      rcases List.mem_cons.mp hp with rfl | hp'
      · exact List.mem_cons_self _ _
      · have := ih k' p hp'
        rw [he] at this
        simp only [List.mem_cons, List.mem_append]
        right; right; right
        exact this

/-! ## Claim theorems: GUI crawler thread -/

/-- A fetch oracle failing on pages 1–3 and succeeding from page 4 on. -/
def fetchFail3 : Nat → PageResult :=
  fun p => if p ≤ 3 then PageResult.fail
           else PageResult.ok [⟨"9", some "u", none⟩]

/-- C6 counterexample: with pages 1, 2 and 3 all failing (three consecutive
page failures) and `max_pages = 4`, the crawl does not stop: it fetches
page 4, emits its record, and terminates with the normal
`finished_crawling` completion — there is no session-fatal path. -/
theorem crawl_no_session_fatal_after_three_failures :
    CrawlerThread.run false (fun _ => false) fetchFail3 4
      = [Ev.progress 1 4 "Fetching page 1...", Ev.errorEmit 1,
         Ev.progress 2 4 "Fetching page 2...", Ev.errorEmit 2,
         Ev.progress 3 4 "Fetching page 3...", Ev.errorEmit 3,
         Ev.progress 4 4 "Fetching page 4...", Ev.imageFound "9",
         Ev.pageComplete 4 1, Ev.finished 1] := by decide

/-- C6 amended: a page fetch/parse failure is recovered locally — the loop
reports it and continues with the next page — and no number of
consecutive failures escalates: without cancellation, every page of the
budget is attempted (its progress event is emitted) no matter how many
pages fail, and the session always terminates with the normal
`finished_crawling` completion rather than a distinct terminal error. -/
theorem crawl_page_failures_recovered (priorCancelled : Bool) (c : Nat → Bool)
    (fetch : Nat → PageResult) (maxPages : Nat)
    (hc : ∀ n, c n = false) (hne : ∀ p, fetch p ≠ PageResult.ok []) :
    (∀ p ∈ List.range' 1 maxPages,
      Ev.progress p maxPages ("Fetching page " ++ toString p ++ "...")
        ∈ CrawlerThread.run priorCancelled c fetch maxPages)
    ∧ (∃ total, (CrawlerThread.run priorCancelled c fetch maxPages).getLast?
        = some (Ev.finished total)) := by
  have hc' : ∀ n, (false || c n) = false := by simp [hc]
  constructor
  · intro p hp
    rw [CrawlerThread.run]
    have := crawlPages_progress_mem (fun n => false || c n) fetch maxPages hc' hne
      (List.range' 1 maxPages) 0 p hp
    rcases he : crawl_danbooru (fun n => false || c n) fetch maxPages with ⟨evs, total⟩
    rw [crawl_danbooru] at he
    rw [he] at this
    simp only [List.mem_append]
    exact Or.inl this
  · rw [CrawlerThread.run]
    rcases he : crawl_danbooru (fun n => false || c n) fetch maxPages with ⟨evs, total⟩
    exact ⟨total, List.getLast?_concat _⟩

/-- Witness for C6 amended: with `fetchFail3` (pages 1–3 fail) and
`max_pages = 4`, page 4's fetch is still attempted and the run ends with
`finished_crawling`. -/
theorem crawl_page_failures_recovered_witness :
    Ev.progress 4 4 "Fetching page 4..."
      ∈ CrawlerThread.run false (fun _ => false) fetchFail3 4
    ∧ (∃ total, (CrawlerThread.run false (fun _ => false) fetchFail3 4).getLast?
        = some (Ev.finished total)) :=
  ⟨(crawl_page_failures_recovered false (fun _ => false) fetchFail3 4
      (fun _ => rfl)
      (by
        intro p h
        simp only [fetchFail3] at h
        split at h
        · exact PageResult.noConfusion h
        · simp at h)).1 4 (by decide),
   (crawl_page_failures_recovered false (fun _ => false) fetchFail3 4
      (fun _ => rfl)
      (by
        intro p h
        simp only [fetchFail3] at h
        split at h
        · exact PageResult.noConfusion h
        · simp at h)).2⟩

/-- C7: cancellation is checked at the top of every page-loop iteration
(`crawlPages`) and again before emitting each individual record
(`emitPosts`), so once cancellation is visible — every flag read from
the `K`-th on returns `True` — at most `K` records are emitted in total:
no record is emitted after the one in flight when `cancel()` lands, and
the crawl terminates (the model is a total function whose loops
short-circuit at the first `True` read). -/
theorem crawl_cancellation_emission_bound (priorCancelled : Bool)
    (c : Nat → Bool) (fetch : Nat → PageResult) (maxPages K : Nat)
    (hc : ∀ n, K ≤ n → c n = true) :
    (CrawlerThread.run priorCancelled c fetch maxPages).countP Ev.isImageFound ≤ K := by
  rw [CrawlerThread.run]
  have hb := crawlPages_countP_le (fun n => false || c n) fetch maxPages K
    (by simpa using hc) (List.range' 1 maxPages) 0
  rcases he : crawl_danbooru (fun n => false || c n) fetch maxPages with ⟨evs, total⟩
  rw [crawl_danbooru] at he
  rw [he] at hb
  have hb' : List.countP Ev.isImageFound evs ≤ K - 0 := hb
  show List.countP Ev.isImageFound (evs ++ [Ev.finished total]) ≤ K
  rw [List.countP_append]
  simp [Ev.isImageFound]
  omega

/-- A fetch oracle with a full page of results on every page. -/
def fetchOne : Nat → PageResult :=
  fun _ => PageResult.ok [⟨"9", some "u", none⟩]

/-- Witness for C7: with the flag reading `True` from the very first read
(`K = 0`), a crawl over endless full pages emits no record at all. -/
theorem crawl_cancellation_emission_bound_witness :
    (CrawlerThread.run false (fun _ => true) fetchOne 4).countP Ev.isImageFound ≤ 0 :=
  crawl_cancellation_emission_bound false (fun _ => true) fetchOne 4 0 (fun _ _ => rfl)

/-- C10: `run()` begins with `self._is_cancelled = False`, so a `cancel()`
issued before `run()` starts is discarded — the run behaves exactly as if
the flag had never been set, and with no cancellation after the start it
performs the full crawl — while a cancellation visible from the first
flag read onward (only possible once `run()` has started) stops the
crawl before any fetch, leaving just `finished_crawling(0)`. -/
theorem run_resets_cancellation_flag (s : Bool) (c : Nat → Bool)
    (fetch : Nat → PageResult) (maxPages : Nat) :
    CrawlerThread.run (CrawlerThread.cancel s) c fetch maxPages
      = CrawlerThread.run false c fetch maxPages
    ∧ CrawlerThread.run (CrawlerThread.cancel s) (fun _ => false) fetchOne 1
      = [Ev.progress 1 1 "Fetching page 1...", Ev.imageFound "9",
         Ev.pageComplete 1 1, Ev.finished 1]
    ∧ CrawlerThread.run s (fun _ => true) fetch maxPages = [Ev.finished 0] := by
  refine ⟨rfl, ?_, ?_⟩
  · show CrawlerThread.run true (fun _ => false) fetchOne 1
      = [Ev.progress 1 1 "Fetching page 1...", Ev.imageFound "9",
         Ev.pageComplete 1 1, Ev.finished 1]
    decide
  · rw [CrawlerThread.run, crawl_danbooru]
    rw [crawlPages_cancelled_at_zero _ fetch maxPages _ rfl]
    rfl

/-! ## Helper lemmas: spider pagination -/

theorem extractItems_page_number (page : Nat) :
    ∀ (ps : List SpiderPost) (pos : Nat) (it : SpiderItem),
      it ∈ extractItems page ps pos → it.page_number = page := by
  intro ps
  induction ps with
  | nil => intro pos it hit; simp [extractItems] at hit
  | cons p rest ih =>
    intro pos it hit
    rw [extractItems] at hit
    cases hx : extract_danbooru_item p page pos with
    | none =>
      rw [hx] at hit
      exact ih (pos + 1) it hit
    | some item =>
      rw [hx] at hit
      rcases List.mem_cons.mp hit with rfl | hit'
      · rw [extract_danbooru_item] at hx
        split at hx
        · injection hx with h
          rw [← h]
        · exact Option.noConfusion hx
      · exact ih (pos + 1) it hit'

theorem spiderPages_fetched_le (fetchPosts : Nat → List SpiderPost)
    (max_pages : Option Nat) (ipp k : Nat) (hk : fetchPosts k = []) :
    ∀ (fuel page : Nat), page ≤ k →
      ∀ j ∈ (spiderPages fetchPosts max_pages ipp fuel page).2, j ≤ k := by
  intro fuel
  induction fuel with
  | zero => intro page hp j hj; simp [spiderPages] at hj
  | succ fuel ih =>
    intro page hp j hj
    rw [spiderPages] at hj
    by_cases hemp : (fetchPosts page).isEmpty
    · simp only [hemp, if_true] at hj
      simp only [List.mem_singleton] at hj
      omega
    · have hpk : page ≠ k := by
        intro h
        rw [h, hk] at hemp
        exact hemp rfl
      simp only [hemp, Bool.false_eq_true, if_false] at hj
      by_cases hsc : should_continue_pagination max_pages page (fetchPosts page).length
      · simp only [hsc, if_true] at hj
        rcases he : spiderPages fetchPosts max_pages ipp fuel (page + 1) with ⟨items', pages'⟩
        rw [he] at hj
        simp only [List.mem_cons] at hj
        rcases hj with rfl | hj
        · omega
        · exact ih (page + 1) (by omega) j (by rw [he]; exact hj)
      · simp only [hsc, Bool.false_eq_true, if_false] at hj
        simp only [List.mem_singleton] at hj
        omega

theorem crawlPages_progress_le (c : Nat → Bool) (fetch : Nat → PageResult)
    (maxP kg : Nat) (hg : fetch kg = PageResult.ok []) :
    ∀ (n s k : Nat), s ≤ kg →
      ∀ p m msg, Ev.progress p m msg ∈ (crawlPages c fetch maxP (List.range' s n) k).1 →
        p ≤ kg := by
  intro n
  induction n with
  | zero => intro s k hs p m msg hmem; simp [List.range', crawlPages] at hmem
  | succ n ih =>
    intro s k hs p m msg hmem
    rw [List.range'_succ, crawlPages] at hmem
    by_cases hck : c k
    · simp [hck] at hmem
    · simp only [hck, Bool.false_eq_true, if_false] at hmem
      cases hf : fetch s with
      | fail =>
        have hsk : s ≠ kg := by
          intro h
          rw [h, hg] at hf
          exact PageResult.noConfusion hf
        rw [hf] at hmem
        rcases he : crawlPages c fetch maxP (List.range' (s + 1) n) (k + 1) with ⟨evs, total⟩
        rw [he] at hmem
        simp only [List.mem_cons] at hmem
        rcases hmem with heq | heq | hmem
        · injection heq with h1 h2 h3
          omega
        · exact absurd heq (by simp)
        · exact ih (s + 1) (k + 1) (by omega) p m msg (by rw [he]; exact hmem)
      | ok posts =>
        rw [hf] at hmem
        by_cases hemp : posts.isEmpty
        · simp only [hemp, if_true, List.mem_cons, List.mem_singleton] at hmem
          rcases hmem with heq | heq | heq
          · injection heq with h1 h2 h3
            omega
          · injection heq with h1 h2 h3
            omega
          · simp at heq
        · have hsk : s ≠ kg := by
            intro h
            rw [h, hg] at hf
            injection hf with h'
            rw [← h'] at hemp
            exact hemp rfl
          simp only [hemp, Bool.false_eq_true, if_false] at hmem
          rcases hei : emitPosts c posts (k + 1) with ⟨ievs, cnt, k'⟩
          rw [hei] at hmem
          rcases he : crawlPages c fetch maxP (List.range' (s + 1) n) k' with ⟨evs, total⟩
          rw [he] at hmem
          simp only [List.mem_cons, List.mem_append] at hmem
          rcases hmem with heq | hmem | heq | hmem
          · injection heq with h1 h2 h3
            omega
          · have := emitPosts_all_imageFound c posts (k + 1)
              (Ev.progress p m msg) (by rw [hei]; exact hmem)
            simp [Ev.isImageFound] at this
          · exact absurd heq (by simp)
          · exact ih (s + 1) k' (by omega) p m msg (by rw [he]; exact hmem)

theorem pairwise_le_of_all_eq (a : Nat) :
    ∀ l : List Nat, (∀ x ∈ l, x = a) → l.Pairwise (· ≤ ·) := by
  intro l
  induction l with
  | nil => intro; exact List.Pairwise.nil
  | cons x xs ih =>
    intro h
    refine List.Pairwise.cons ?_ (ih fun y hy => h y (List.mem_cons_of_mem _ hy))
    intro y hy
    rw [h x (List.mem_cons_self _ _), h y (List.mem_cons_of_mem _ hy)]

theorem spiderPages_spec (fetchPosts : Nat → List SpiderPost) (N ipp : Nat)
    (hN : 1 ≤ N) :
    ∀ (fuel page : Nat),
      ∃ cnt, (spiderPages fetchPosts (some N) ipp fuel page).2 = List.range' page cnt
        ∧ (page ≤ N → cnt ≤ N + 1 - page)
        ∧ (N < page → cnt ≤ 1)
        ∧ (∀ it ∈ (spiderPages fetchPosts (some N) ipp fuel page).1,
            page ≤ it.page_number ∧ it.page_number < page + cnt)
        ∧ ((spiderPages fetchPosts (some N) ipp fuel page).1.map
            SpiderItem.page_number).Pairwise (· ≤ ·) := by
  intro fuel
  induction fuel with
  | zero =>
    intro page
    exact ⟨0, rfl, fun _ => by omega, fun _ => by omega,
      by intro it hit; simp [spiderPages] at hit, by simp [spiderPages]⟩
  | succ fuel ih =>
    intro page
    by_cases hemp : (fetchPosts page).isEmpty
    · have hres : spiderPages fetchPosts (some N) ipp (fuel + 1) page = ([], [page]) := by
        rw [spiderPages]
        simp [hemp]
      refine ⟨1, ?_, fun _ => by omega, fun _ => by omega, ?_, ?_⟩
      · rw [hres]
        rfl
      · intro it hit
        rw [hres] at hit
        simp at hit
      · rw [hres]
        simp
    · have hlen0 : (fetchPosts page).length ≠ 0 := by
        intro h0
        rw [List.length_eq_zero] at h0
        rw [h0] at hemp
        exact hemp rfl
      by_cases hge : N ≤ page
      · have hsc : should_continue_pagination (some N) page (fetchPosts page).length
            = false := by
          rw [should_continue_pagination, if_neg hlen0]
          simp
          omega
        have hres : spiderPages fetchPosts (some N) ipp (fuel + 1) page
            = (extractItems page ((fetchPosts page).take ipp) 1, [page]) := by
          rw [spiderPages]
          simp [hemp, hsc]
        refine ⟨1, ?_, fun _ => by omega, fun _ => by omega, ?_, ?_⟩
        · rw [hres]
          rfl
        · intro it hit
          rw [hres] at hit
          have := extractItems_page_number page _ 1 it hit
          omega
        · rw [hres]
          exact pairwise_le_of_all_eq page _ (by
            intro x hx
            obtain ⟨it, hit, rfl⟩ := List.mem_map.mp hx
            exact extractItems_page_number page _ 1 it hit)
      · have hlt : page < N := by omega
        have hsc : should_continue_pagination (some N) page (fetchPosts page).length
            = true := by
          rw [should_continue_pagination, if_neg hlen0]
          simp
          omega
        obtain ⟨cnt', hpg', hb1', hb2', hits', hsort'⟩ := ih (page + 1)
        rcases he : spiderPages fetchPosts (some N) ipp fuel (page + 1) with ⟨items', pages'⟩
        rw [he] at hpg' hits' hsort'
        have hpg2 : pages' = List.range' (page + 1) cnt' := hpg'
        have hits2 : ∀ it ∈ items',
            page + 1 ≤ it.page_number ∧ it.page_number < page + 1 + cnt' := hits'
        have hsort2 : (items'.map SpiderItem.page_number).Pairwise (· ≤ ·) := hsort'
        have hres : spiderPages fetchPosts (some N) ipp (fuel + 1) page
            = (extractItems page ((fetchPosts page).take ipp) 1 ++ items',
               page :: pages') := by
          rw [spiderPages]
          simp [hemp, hsc, he]
        refine ⟨cnt' + 1, ?_, ?_, fun h => by omega, ?_, ?_⟩
        · rw [hres]
          show page :: pages' = List.range' page (cnt' + 1)
          rw [List.range'_succ]
          rw [hpg2]
        · intro _
          have := hb1' (by omega)
          omega
        · intro it hit
          rw [hres] at hit
          simp only [List.mem_append] at hit
          rcases hit with hit | hit
          · have := extractItems_page_number page _ 1 it hit
            omega
          · have := hits2 it hit
            omega
        · rw [hres]
          show ((extractItems page ((fetchPosts page).take ipp) 1 ++ items').map
            SpiderItem.page_number).Pairwise (· ≤ ·)
          rw [List.map_append, List.pairwise_append]
          refine ⟨pairwise_le_of_all_eq page _ (by
              intro x hx
              obtain ⟨it, hit, rfl⟩ := List.mem_map.mp hx
              exact extractItems_page_number page _ 1 it hit),
            hsort2, ?_⟩
          intro a ha b hb
          obtain ⟨ita, hita, rfl⟩ := List.mem_map.mp ha
          obtain ⟨itb, hitb, rfl⟩ := List.mem_map.mp hb
          have ha' := extractItems_page_number page _ 1 ita hita
          have hb' := hits2 itb hitb
          omega

/-! ## Claim theorems: pagination -/

/-- C8: pagination stops at an empty page in both pagination loops.  In the
spider, `parse` returns without yielding a follow-up request when a page
has no posts, so no page after `k` is ever fetched; in the GUI crawler,
an empty post list breaks the page loop, so no fetch (witnessed by its
`progress` emission, which immediately precedes every request) happens
for any page after `kg` — regardless of the remaining page budget. -/
theorem pagination_stops_on_empty_page
    (fetchPosts : Nat → List SpiderPost) (max_pages : Option Nat)
    (images_per_page fuel start k : Nat)
    (hstart : start ≤ k) (hempty : fetchPosts k = [])
    (priorCancelled : Bool) (c : Nat → Bool) (fetch : Nat → PageResult)
    (maxPages kg : Nat) (hkg : 1 ≤ kg) (hg : fetch kg = PageResult.ok []) :
    (∀ j ∈ (spiderPages fetchPosts max_pages images_per_page fuel start).2, j ≤ k)
    ∧ (∀ p m msg,
        Ev.progress p m msg ∈ CrawlerThread.run priorCancelled c fetch maxPages →
          p ≤ kg) := by
  constructor
  · exact spiderPages_fetched_le fetchPosts max_pages images_per_page k hempty
      fuel start hstart
  · intro p m msg hmem
    rw [CrawlerThread.run] at hmem
    rcases he : crawl_danbooru (fun n => false || c n) fetch maxPages with ⟨evs, total⟩
    rw [he] at hmem
    have hmem' : Ev.progress p m msg ∈ evs ++ [Ev.finished total] := hmem
    rw [List.mem_append] at hmem'
    rcases hmem' with hmem' | hmem'
    · rw [crawl_danbooru] at he
      have hevs : (crawlPages (fun n => false || c n) fetch maxPages
          (List.range' 1 maxPages) 0).1 = evs := by rw [he]
      exact crawlPages_progress_le (fun n => false || c n) fetch maxPages kg hg
        maxPages 1 0 hkg p m msg (by rw [hevs]; exact hmem')
    · simp at hmem'

/-- Spider fetch oracle whose page 2 is empty while every other page has a
post with a full-resolution URL. -/
def spiderFetchEmpty2 : Nat → List SpiderPost :=
  fun p => if p = 2 then [] else [⟨some "u", none, none, some "y"⟩]

/-- GUI fetch oracle whose page 3 parses to an empty post list. -/
def fetchEmpty3 : Nat → PageResult :=
  fun p => if p = 3 then PageResult.ok []
           else PageResult.ok [⟨"9", some "u", none⟩]

/-- Witness for C8: a spider crawl from page 1 with page 2 empty never
fetches past page 2; a GUI crawl with page 3 empty emits no progress
for any page past 3. -/
theorem pagination_stops_on_empty_page_witness :
    (∀ j ∈ (spiderPages spiderFetchEmpty2 (some 9) 20 9 1).2, j ≤ 2)
    ∧ (∀ p m msg,
        Ev.progress p m msg ∈ CrawlerThread.run false (fun _ => false) fetchEmpty3 9 →
          p ≤ 3) :=
  pagination_stops_on_empty_page spiderFetchEmpty2 (some 9) 20 9 1 2
    (by decide) (by decide) false (fun _ => false) fetchEmpty3 9 3
    (by decide) (by decide)

/-- Spider fetch oracle where page 2's one post lacks every image-URL
attribute (the item is dropped) while pages 1 and 3 have valid posts. -/
def spiderFetchGap : Nat → List SpiderPost :=
  fun p => if p = 2 then [⟨none, none, none, some "x"⟩]
           else [⟨some "u", none, none, some "y"⟩]

/-- C9 counterexample: with `max_pages = 3`, `start_page = 1` and a middle
page whose posts all lack a resolvable image URL, the emitted records
carry `pageNumber` values `[1, 3]` — pages 1 and 3 appear but page 2
does not, so the values are not a contiguous run starting at
`startPage` as the claim states. -/
theorem spider_page_numbers_not_contiguous :
    ((spiderRun spiderFetchGap (some 3) 1 10).1.map SpiderItem.page_number = [1, 3])
    ∧ (1 : Nat) ∈ (spiderRun spiderFetchGap (some 3) 1 10).1.map SpiderItem.page_number
    ∧ (3 : Nat) ∈ (spiderRun spiderFetchGap (some 3) 1 10).1.map SpiderItem.page_number
    ∧ (2 : Nat) ∉ (spiderRun spiderFetchGap (some 3) 1 10).1.map SpiderItem.page_number
    := by decide

/-- C9 amended: for a crawl with `maxPages = N ≥ 1` and `startPage ≥ 1`, the
fetched pages form a contiguous strictly increasing run of at most `N`
pages starting at `startPage`; every emitted record's `pageNumber` lies
in that run and the emitted `pageNumber` sequence is nondecreasing, so
records carry at most `N` distinct `pageNumber` values — but those
values themselves need not be contiguous nor include `startPage`,
because a fetched page whose posts all lack an image URL emits no
records while pagination continues. -/
theorem spider_pagination_page_numbers (fetchPosts : Nat → List SpiderPost)
    (N start fuel : Nat) (hstart : 1 ≤ start) (hN : 1 ≤ N) :
    ∃ cnt, (spiderRun fetchPosts (some N) start fuel).2 = List.range' start cnt
      ∧ cnt ≤ N
      ∧ (∀ it ∈ (spiderRun fetchPosts (some N) start fuel).1,
          it.page_number ∈ (spiderRun fetchPosts (some N) start fuel).2)
      ∧ ((spiderRun fetchPosts (some N) start fuel).1.map
          SpiderItem.page_number).Pairwise (· ≤ ·)
      ∧ ((spiderRun fetchPosts (some N) start fuel).1.map
          SpiderItem.page_number).dedup.length ≤ N := by
  obtain ⟨cnt, hpg, hb1, hb2, hits, hsort⟩ := spiderPages_spec fetchPosts N 20 hN fuel start
  have hcnt : cnt ≤ N := by
    by_cases h : start ≤ N
    · have := hb1 h
      omega
    · have := hb2 (by omega)
      omega
  refine ⟨cnt, hpg, hcnt, ?_, hsort, ?_⟩
  · intro it hit
    have hb := hits it hit
    show it.page_number ∈ (spiderPages fetchPosts (some N) 20 fuel start).2
    rw [hpg, List.mem_range'_1]
    omega
  · have hsub : ((spiderRun fetchPosts (some N) start fuel).1.map
        SpiderItem.page_number).dedup ⊆ List.range' start cnt := by
      intro x hx
      have hx' := List.dedup_subset _ hx
      obtain ⟨it, hit, rfl⟩ := List.mem_map.mp hx'
      have := hits it hit
      rw [List.mem_range'_1]
      omega
    have hnd := List.nodup_dedup ((spiderRun fetchPosts (some N) start fuel).1.map
      SpiderItem.page_number)
    calc ((spiderRun fetchPosts (some N) start fuel).1.map
            SpiderItem.page_number).dedup.length
        = ((spiderRun fetchPosts (some N) start fuel).1.map
            SpiderItem.page_number).dedup.toFinset.card :=
          (List.toFinset_card_of_nodup hnd).symm
      _ ≤ (List.range' start cnt).toFinset.card := Finset.card_le_card (by
            intro x hx
            simp only [List.mem_toFinset] at hx ⊢
            exact hsub hx)
      _ ≤ (List.range' start cnt).length := List.toFinset_card_le _
      _ = cnt := List.length_range' _ _ _
      _ ≤ N := hcnt

/-- Witness for C9 amended at the gap scenario: `N = 3`, `startPage = 1`. -/
theorem spider_pagination_page_numbers_witness :
    ∃ cnt, (spiderRun spiderFetchGap (some 3) 1 10).2 = List.range' 1 cnt
      ∧ cnt ≤ 3
      ∧ (∀ it ∈ (spiderRun spiderFetchGap (some 3) 1 10).1,
          it.page_number ∈ (spiderRun spiderFetchGap (some 3) 1 10).2)
      ∧ ((spiderRun spiderFetchGap (some 3) 1 10).1.map
          SpiderItem.page_number).Pairwise (· ≤ ·)
      ∧ ((spiderRun spiderFetchGap (some 3) 1 10).1.map
          SpiderItem.page_number).dedup.length ≤ 3 :=
  spider_pagination_page_numbers spiderFetchGap 3 1 10 (by decide) (by decide)

end AnimeCrawler
